import Mathlib

/-!
Verification of the receipt-ranger state-tracking and deduplication layer.

This file gives a shallow embedding of the relevant functions of
src/main.py and src/sheets.py, and proves properties about them.
Python dicts that are used as insertion-ordered key/value maps are
embedded as association lists with overwrite-in-place insertion
(matching CPython dict semantics: insertion order is preserved, and
overwriting a key keeps its original position).  Receipt fields that the
code only ever reads as strings, or coerces with str(), are embedded as
optional strings (none meaning the key is absent from the dict).
-/

set_option maxRecDepth 40000

namespace ReceiptRanger

/-! ## Insertion-ordered association maps (CPython dict semantics) -/

/-- Insert key k with value v into an insertion-ordered map: if k is
already present its value is overwritten in place, otherwise the pair is
appended at the end.  This is exactly the behaviour of assignment into a
CPython dict. -/
def insertAssoc {α : Type} (m : List (String × α)) (k : String) (v : α) :
    List (String × α) :=
  if m.any (fun p => p.1 = k) then
    m.map (fun p => if p.1 = k then (k, v) else p)
  else m ++ [(k, v)]

/-- Lookup in an association map (first matching key). -/
def lookupAssoc {α : Type} (m : List (String × α)) (k : String) : Option α :=
  (m.find? (fun p => p.1 = k)).map Prod.snd

/-! ## Receipts (src/main.py data model)

A receipt is a JSON-ish dict.  The fields relevant to the claims are
embedded below; a field of value none models the key being absent from
the dict.  The amount field is carried as its Python str() rendering,
since every code path in the claims reads it either through str() or an
f-string. -/

structure Receipt where
  id : Option String := none
  amount : Option String := none
  date : Option String := none
  vendor : Option String := none
  category : Option (List String) := none
  paymentMethod : Option (List String) := none
  excludeFromTable : Option Bool := none
  exclusionReason : Option String := none
  source_file : Option String := none
  source_hash : Option String := none
deriving Repr, DecidableEq

/-- Python str(x) applied to receipt.get(field): an absent key yields
the string None, a present string is itself. -/
def pyStrOpt : Option String → String
  | some s => s
  | none => "None"

/-- Python truthiness of an optional string field: the value must be
present and non-empty. -/
def truthyString : Option String → Option String
  | some s => if s = "" then none else some s
  | none => none

/-! ## Receipt keys and dedup (src/main.py lines 153-170) -/

/-- Composite fallback key, mirroring the f-string
amount pipe date pipe vendor pipe comma-joined-categories in
main._receipt_key.  Absent amount, date and vendor fall back to the
empty string (dict.get with default), and an absent or empty category
list becomes the empty list (the or-[] idiom). -/
def compositeKey (r : Receipt) : String :=
  (r.amount.getD "") ++ "|" ++ (r.date.getD "") ++ "|" ++ (r.vendor.getD "")
    ++ "|" ++ String.intercalate "," (r.category.getD [])

/-- main._receipt_key: source_hash if truthy, else id if truthy, else
the composite key. -/
def _receipt_key (r : Receipt) : String :=
  match truthyString r.source_hash with
  | some s => s
  | none =>
    match truthyString r.id with
    | some s => s
    | none => compositeKey r

/-- Fold a list of receipts into an insertion-ordered key-to-receipt
map, starting from init.  This is the loop body shared by
main.dedupe_receipts and main._merge_receipts_into_state. -/
def buildReceiptMap (init : List (String × Receipt)) (rs : List Receipt) :
    List (String × Receipt) :=
  rs.foldl (fun m r => insertAssoc m (_receipt_key r) r) init

/-- main.dedupe_receipts: build the map from an empty dict and return
its values. -/
def dedupe_receipts (rs : List Receipt) : List Receipt :=
  (buildReceiptMap [] rs).map Prod.snd

/-- Last receipt in the list whose derived key is k, if any. -/
def lastWithKey (k : String) (rs : List Receipt) : Option Receipt :=
  (rs.filter (fun r => _receipt_key r = k)).getLast?

/-! ## Persisted state (src/main.py lines 109-150, 322-324) -/

/-- Normalized persisted state: a files section (filename to
fingerprint) and a receipts section (receipt key to receipt). -/
structure PersistedState where
  files : List (String × String)
  receipts : List (String × Receipt)
deriving Repr, DecidableEq

/-- Parse result of the state file's JSON, at the granularity
main._normalize_state inspects it: not a dict at all; a dict carrying a
files and/or receipts section; or a legacy flat dict of filename to
fingerprint (a dict with neither section key). -/
inductive StateDoc where
  | notDict
  | flatDict (m : List (String × String))
  | sectioned (files : Option (List (String × String)))
      (receipts : Option (List (String × Receipt)))
deriving Repr, DecidableEq

/-- main._normalize_state. -/
def _normalize_state : StateDoc → PersistedState
  | .notDict => ⟨[], []⟩
  | .flatDict m => ⟨m, []⟩
  | .sectioned f r => ⟨f.getD [], r.getD []⟩

/-- main.load_state: the argument is the parsed state file content, or
none if the file does not exist (in which case the code normalizes an
empty dict). -/
def load_state : Option StateDoc → PersistedState
  | some d => _normalize_state d
  | none => _normalize_state (.flatDict [])

/-- main.save_state: the state dict (already carrying files and
receipts keys, which _normalize_state therefore keeps as-is) is dumped
as JSON; reparsing that JSON yields a dict with both section keys. -/
def save_state (s : PersistedState) : StateDoc :=
  .sectioned (some s.files) (some s.receipts)

/-- main._merge_receipts_into_state: assign each receipt into the
receipts section under its derived key. -/
def _merge_receipts_into_state (s : PersistedState) (rs : List Receipt) :
    PersistedState :=
  { s with receipts := buildReceiptMap s.receipts rs }

/-! ## Category normalization (src/main.py lines 37-91, 173-190) -/

/-- main.CATEGORY_ENUM_TO_LABEL, in source order. -/
def CATEGORY_ENUM_TO_LABEL : List (String × String) :=
  [("FOOD_RESTAURANTS", "Food & Restaurants"),
   ("GROCERIES", "Groceries"),
   ("TRANSPORTATION", "Transportation"),
   ("TRAVEL", "Travel"),
   ("LODGING", "Lodging"),
   ("UTILITIES", "Utilities"),
   ("HOUSING_RENT", "Housing & Rent"),
   ("HEALTH_MEDICAL", "Health & Medical"),
   ("INSURANCE", "Insurance"),
   ("ENTERTAINMENT_RECREATION", "Entertainment & Recreation"),
   ("CLOTHING_SHOES", "Clothing & Shoes"),
   ("ELECTRONICS_GADGETS", "Electronics & Gadgets"),
   ("HOME_GARDEN", "Home & Garden"),
   ("OFFICE_SUPPLIES", "Office & Supplies"),
   ("EDUCATION", "Education"),
   ("GIFTS_DONATIONS", "Gifts & Donations"),
   ("SUBSCRIPTIONS_MEMBERSHIPS", "Subscriptions & Memberships"),
   ("FEES_SERVICES", "Fees & Services"),
   ("TAXES", "Taxes"),
   ("CHILDCARE", "Childcare"),
   ("PET_CARE", "Pet Care"),
   ("PERSONAL_CARE", "Personal Care"),
   ("OTHER", "Other")]

/-- main.CANONICAL_CATEGORIES: the label values of the enum table, in
order. -/
def CANONICAL_CATEGORIES : List String :=
  CATEGORY_ENUM_TO_LABEL.map Prod.snd

/-- main.CATEGORY_ALIASES, in source order. -/
def CATEGORY_ALIASES : List (String × String) :=
  [("food/restaurants", "Food & Restaurants"),
   ("food and restaurants", "Food & Restaurants"),
   ("food & restaurants", "Food & Restaurants"),
   ("restaurants", "Food & Restaurants"),
   ("clothing", "Clothing & Shoes"),
   ("clothes", "Clothing & Shoes"),
   ("entertainment", "Entertainment & Recreation"),
   ("housing", "Housing & Rent"),
   ("rent", "Housing & Rent")]

/-- Python str.lower, for the ASCII strings this code handles. -/
def pyLower (s : String) : String :=
  String.mk (s.data.map Char.toLower)

/-- Split a character list on whitespace runs into the non-empty words,
as the no-argument Python str.split does. -/
def wsWordsGo (cur : List Char) : List Char → List (List Char)
  | [] => if cur.isEmpty then [] else [cur.reverse]
  | c :: cs =>
    if c.isWhitespace then
      if cur.isEmpty then wsWordsGo [] cs else cur.reverse :: wsWordsGo [] cs
    else wsWordsGo (c :: cur) cs

/-- Python str.split with no argument. -/
def pySplitWs (s : String) : List String :=
  (wsWordsGo [] s.data).map String.mk

/-- main._category_key: lowercase, then split on whitespace runs and
rejoin with single spaces (Python strip-lower-split-join; the strip is
subsumed by the split). -/
def _category_key (value : String) : String :=
  String.intercalate " " (pySplitWs (pyLower value))

/-- main._build_category_lookup: enum spellings and labels first, then
aliases, inserted into one dict in source order. -/
def _build_category_lookup : List (String × String) :=
  let base := CATEGORY_ENUM_TO_LABEL.foldl
    (fun m p => insertAssoc (insertAssoc m (_category_key p.1) p.2)
      (_category_key p.2) p.2) []
  CATEGORY_ALIASES.foldl (fun m p => insertAssoc m (_category_key p.1) p.2) base

/-- main.CATEGORY_LOOKUP. -/
def CATEGORY_LOOKUP : List (String × String) := _build_category_lookup

/-- Python str.strip (whitespace at both ends). -/
def pyStrip (s : String) : String :=
  String.mk (((s.data.dropWhile Char.isWhitespace).reverse.dropWhile
    Char.isWhitespace).reverse)

/-- Loop body of main.normalize_categories: raw entries that are None
are skipped, blank strings are skipped, and otherwise the looked-up
canonical label (defaulting to Other) is appended unless already seen. -/
def normCatsGo (seen : List String) : List (Option String) → List String
  | [] => []
  | none :: rest => normCatsGo seen rest
  | some v :: rest =>
    if pyStrip v = "" then normCatsGo seen rest
    else
      let canonical := (lookupAssoc CATEGORY_LOOKUP (_category_key v)).getD "Other"
      if canonical ∈ seen then normCatsGo seen rest
      else canonical :: normCatsGo (canonical :: seen) rest

/-- main.normalize_categories.  An input of none models a raw category
list that is absent or None; entries of none model None items. -/
def normalize_categories (categories : Option (List (Option String))) :
    List String :=
  match categories with
  | none => []
  | some cats => if cats = [] then [] else normCatsGo [] cats

/-! ## Exclusion filter (src/main.py lines 277-304) -/

/-- One warning line printed for an excluded receipt.  The printed text
interpolates the vendor (defaulting to Unknown), the amount field
rendered with two fraction digits (a float rendering outside this
embedding, carried here as the raw field), and the reason string. -/
structure ExclusionWarning where
  vendor : String
  amount : Option String
  reason : String
deriving Repr, DecidableEq

/-- Warning record built for one excluded receipt, mirroring the three
dict.get calls in main._filter_excluded_receipts: the defaults apply
exactly when the corresponding key is absent. -/
def warningOf (r : Receipt) : ExclusionWarning :=
  ⟨r.vendor.getD "Unknown", r.amount, r.exclusionReason.getD "No reason provided"⟩

/-- main._filter_excluded_receipts, returning the included list, the
excluded list, and the warnings printed (empty when print_warnings is
false). -/
def _filter_excluded_receipts (receipts : List Receipt)
    (print_warnings : Bool) :
    List Receipt × List Receipt × List ExclusionWarning :=
  match receipts with
  | [] => ([], [], [])
  | r :: rest =>
    let (inc, exc, ws) := _filter_excluded_receipts rest print_warnings
    if r.excludeFromTable.getD false then
      (inc, r :: exc, (if print_warnings then [warningOf r] else []) ++ ws)
    else (r :: inc, exc, ws)

/-! ## State-file write model (src/main.py lines 117-121, claim C1)

main.save_state writes the state file with open(STATE_FILE, "w")
followed by json.dump.  Its externally visible file-system effect is a
sequence of primitive operations on the target path: the truncating
open, then the write of the serialized text.  A crash between two
operations leaves the content produced by the prefix executed so far. -/

inductive FileOp where
  | truncate
  | writeAll (s : String)
deriving Repr, DecidableEq

/-- Effect of one primitive operation on the target file's content
(none means the file does not exist). -/
def applyFileOp : Option String → FileOp → Option String
  | _, .truncate => some ""
  | c, .writeAll s => some (c.getD "" ++ s)

/-- The operations main.save_state performs on the state-file path:
open with mode w (which truncates the target in place), then write the
serialized state.  No temporary file and no rename are involved. -/
def save_state_ops (serialized : String) : List FileOp :=
  [.truncate, .writeAll serialized]

/-- Contents of the target file observable at each crash point: before
any operation, and after each prefix of the operation list. -/
def crashContents (old : Option String) (ops : List FileOp) :
    List (Option String) :=
  List.scanl applyFileOp old ops

/-! ## Change detection in directory mode (src/main.py lines 94-97, 358-381) -/

/-- Index of the last occurrence of c in cs, if any. -/
def lastIndexOf (c : Char) (cs : List Char) : Option Nat :=
  match cs.reverse.findIdx? (fun x => x = c) with
  | some i => some (cs.length - 1 - i)
  | none => none

/-- Extension part of os.path.splitext (POSIX rules): the suffix from
the last dot of the basename, unless every character of the basename
before that dot is itself a dot. -/
def splitextExt (p : String) : String :=
  let cs := p.data
  let sepIdx : Int := (lastIndexOf '/' cs).elim (-1) Int.ofNat
  let dotIdx : Int := (lastIndexOf '.' cs).elim (-1) Int.ofNat
  if sepIdx < dotIdx then
    let start := (sepIdx + 1).toNat
    let stop := dotIdx.toNat
    if (List.range' start (stop - start)).any (fun i => cs.getD i ' ' ≠ '.') then
      String.mk (cs.drop stop)
    else ""
  else ""

/-- main.VALID_EXTENSIONS. -/
def VALID_EXTENSIONS : List String :=
  [".jpg", ".jpeg", ".png", ".gif", ".bmp", ".webp", ".tiff"]

/-- main.is_valid_image: the lowercased extension is a supported image
extension. -/
def is_valid_image (filename : String) : Bool :=
  VALID_EXTENSIONS.contains (pyLower (splitextExt filename))

/-- main.RECEIPTS_DIR. -/
def RECEIPTS_DIR : String := "data" ++ "/" ++ "receipts"

/-- One entry of the receipts directory: its name, whether the path is
a regular file, and the content fingerprint main.file_hash would
compute for it. -/
structure DirEntry where
  name : String
  isFile : Bool
  hash : String
deriving Repr, DecidableEq

/-- Insert a directory entry into a name-sorted list (ascending). -/
def insertSortedEntry (e : DirEntry) : List DirEntry → List DirEntry
  | [] => [e]
  | x :: xs =>
    if x.name < e.name then x :: insertSortedEntry e xs else e :: x :: xs

/-- Sort directory entries by name, modelling Python sorted(os.listdir(d)). -/
def sortEntries : List DirEntry → List DirEntry
  | [] => []
  | x :: xs => insertSortedEntry x (sortEntries xs)

/-- Loop body of main.get_receipts_to_process in directory mode, over
an already-sorted entry list: skip names without a supported image
extension, skip non-files, and with allow_duplicates off skip files
whose prior fingerprint equals the fresh one; keep the rest as
(filename, filepath, fingerprint). -/
def planLoop (seen_files : List (String × String)) (allow_duplicates : Bool) :
    List DirEntry → List (String × String × String)
  | [] => []
  | e :: es =>
    if !is_valid_image e.name then planLoop seen_files allow_duplicates es
    else if !e.isFile then planLoop seen_files allow_duplicates es
    else if !allow_duplicates && lookupAssoc seen_files e.name == some e.hash then
      planLoop seen_files allow_duplicates es
    else (e.name, RECEIPTS_DIR ++ "/" ++ e.name, e.hash)
      :: planLoop seen_files allow_duplicates es

/-- main.get_receipts_to_process, directory mode: iterate the
directory's entries in sorted order with the loop above.  seen_files is
the files section of the loaded state. -/
def get_receipts_to_process_dir (entries : List DirEntry)
    (seen_files : List (String × String)) (allow_duplicates : Bool) :
    List (String × String × String) :=
  planLoop seen_files allow_duplicates (sortEntries entries)

/-! ## Worksheet repair (src/sheets.py lines 92-214) -/

/-- The canonical header row of sheets.py. -/
def EXPECTED_HEADER : List String := ["Amount", "Date", "", "Vendor", "Category"]

/-- Drop an optional leading sign, as Python float parsing does. -/
def dropSign : List Char → List Char
  | '+' :: r => r
  | '-' :: r => r
  | r => r

/-- Mantissa of a Python float literal: digits, digits-dot, dot-digits
or digits-dot-digits. -/
def pyFloatMantissa (cs : List Char) : Bool :=
  let intPart := cs.takeWhile Char.isDigit
  let rest := cs.dropWhile Char.isDigit
  match rest with
  | [] => !intPart.isEmpty
  | '.' :: frac => (!intPart.isEmpty || !frac.isEmpty) && frac.all Char.isDigit
  | _ => false

/-- Acceptance of Python float(s): optional surrounding whitespace and
sign, then inf, infinity, nan (case-insensitive) or a decimal literal
with optional exponent. -/
def pyFloatAccepts (s : String) : Bool :=
  let t0 := (pyStrip s).data.map Char.toLower
  let t := dropSign t0
  if t = "inf".data || t = "infinity".data || t = "nan".data then true
  else
    let mant := t.takeWhile (fun c => c ≠ 'e')
    match t.dropWhile (fun c => c ≠ 'e') with
    | [] => pyFloatMantissa mant
    | _ :: ex =>
      let ex' := dropSign ex
      pyFloatMantissa mant && !ex'.isEmpty && ex'.all Char.isDigit

/-- Body of the row loop of
sheets.extract_receipts_from_misaligned_worksheet: skip blank rows and
header rows, slice 5 cells from the first non-blank cell (padded with
empty strings), and keep the slice only if its first cell, stripped and
with commas turned into dots, parses as a float. -/
def extractRow (row : List String) : Option (List String) :=
  if !(row.any (fun cell => !(pyStrip cell).isEmpty)) then none
  else if row.take 5 = EXPECTED_HEADER then none
  else
    match row.findIdx? (fun cell => !(pyStrip cell).isEmpty) with
    | none => none
    | some start =>
      let slice := (row.drop start).take 5
      let slice := slice ++ List.replicate (5 - slice.length) ""
      let amount_str := pyStrip (slice.headD "")
      if amount_str = "" then none
      else if pyFloatAccepts (amount_str.replace "," ".") then some slice
      else none

/-- sheets.extract_receipts_from_misaligned_worksheet over the full
grid returned by get_all_values. -/
def extract_receipts_from_misaligned_worksheet (ws : List (List String)) :
    List (List String) :=
  ws.filterMap extractRow

/-- A write issued against a worksheet: clear, or append_row. -/
inductive WriteOp where
  | clear
  | appendRow (row : List String)
deriving Repr, DecidableEq

/-- Effect of one write on the worksheet grid. -/
def applyWrite (ws : List (List String)) : WriteOp → List (List String)
  | .clear => []
  | .appendRow r => ws ++ [r]

/-- Result of running a repair pass over one worksheet: the grid after
the pass, the writes performed, and the reported realigned-row count. -/
structure WsRunResult where
  ws : List (List String)
  writes : List WriteOp
  count : Nat
deriving Repr, DecidableEq

/-- Trailing empty cells are not reported by the sheet API's row read,
so worksheet.row_values(1) yields the first row with trailing empty
cells dropped. -/
def dropTrailingBlankCells (row : List String) : List String :=
  (row.reverse.dropWhile String.isEmpty).reverse

/-- worksheet.row_values(1) on the grid. -/
def rowValues1 (ws : List (List String)) : List String :=
  dropTrailingBlankCells (ws.headD [])

/-- sheets.has_valid_headers: non-empty first row whose first five
cells equal the canonical header. -/
def has_valid_headers (ws : List (List String)) : Bool :=
  let first_row := rowValues1 ws
  if first_row.isEmpty then false
  else decide (first_row.take 5 = EXPECTED_HEADER)

/-- sheets.fix_misaligned_worksheet: extract salvageable rows; with
none, write a fresh header only if the current one is invalid;
otherwise clear, write the header, and append every extracted row. -/
def fix_misaligned_worksheet (ws : List (List String)) : WsRunResult :=
  let extracted := extract_receipts_from_misaligned_worksheet ws
  if extracted.isEmpty then
    if !has_valid_headers ws then
      let ops : List WriteOp := [.clear, .appendRow EXPECTED_HEADER]
      ⟨ops.foldl applyWrite ws, ops, 0⟩
    else ⟨ws, [], 0⟩
  else
    let ops : List WriteOp :=
      .clear :: .appendRow EXPECTED_HEADER :: extracted.map WriteOp.appendRow
    ⟨ops.foldl applyWrite ws, ops, extracted.length⟩

/-- Per-worksheet body of sheets.fix_all_worksheets: a worksheet with
valid headers is skipped with no writes, any other worksheet is
repaired. -/
def fix_worksheet_step (ws : List (List String)) : WsRunResult :=
  if has_valid_headers ws then ⟨ws, [], 0⟩ else fix_misaligned_worksheet ws

/-! ## Date parsing (src/main.py lines 198-206)

main._parse_date tries the strptime formats m/d/Y, Y-m-d and m/d/y in
order.  CPython strptime compiles each directive to a regular
expression fragment with ordered alternatives (two-digit forms before
one-digit forms for m and d, exactly four digits for Y, exactly two
digits for y with the 69 pivot), requires the whole string to match,
and then validates the resulting calendar date. -/

/-- Numeric value of a decimal digit character. -/
def digitVal (c : Char) : Nat := c.toNat - '0'.toNat

/-- Month directive: alternatives 1 followed by 0-2, then 0 followed by
1-9, then a single 1-9, each returned with the remaining input, in
regex alternation order. -/
def matchMonth : List Char → List (Nat × List Char)
  | c1 :: c2 :: rest =>
    (if c1 = '1' ∧ '0' ≤ c2 ∧ c2 ≤ '2' then [(10 + digitVal c2, rest)] else [])
    ++ (if c1 = '0' ∧ '1' ≤ c2 ∧ c2 ≤ '9' then [(digitVal c2, rest)] else [])
    ++ (if '1' ≤ c1 ∧ c1 ≤ '9' then [(digitVal c1, c2 :: rest)] else [])
  | [c1] => if '1' ≤ c1 ∧ c1 ≤ '9' then [(digitVal c1, [])] else []
  | [] => []

/-- Day directive: 3 then 0-1, 1-2 then a digit, 0 then 1-9, or a
single 1-9, in regex alternation order. -/
def matchDay : List Char → List (Nat × List Char)
  | c1 :: c2 :: rest =>
    (if c1 = '3' ∧ '0' ≤ c2 ∧ c2 ≤ '1' then [(30 + digitVal c2, rest)] else [])
    ++ (if (c1 = '1' ∨ c1 = '2') ∧ c2.isDigit then
        [(10 * digitVal c1 + digitVal c2, rest)] else [])
    ++ (if c1 = '0' ∧ '1' ≤ c2 ∧ c2 ≤ '9' then [(digitVal c2, rest)] else [])
    ++ (if '1' ≤ c1 ∧ c1 ≤ '9' then [(digitVal c1, c2 :: rest)] else [])
  | [c1] => if '1' ≤ c1 ∧ c1 ≤ '9' then [(digitVal c1, [])] else []
  | [] => []

/-- Four-digit year directive. -/
def matchYear4 : List Char → List (Nat × List Char)
  | a :: b :: c :: e :: rest =>
    if a.isDigit ∧ b.isDigit ∧ c.isDigit ∧ e.isDigit then
      [(1000 * digitVal a + 100 * digitVal b + 10 * digitVal c + digitVal e,
        rest)]
    else []
  | _ => []

/-- Two-digit year directive with the CPython pivot: 0-68 maps into the
2000s, 69-99 into the 1900s. -/
def matchYear2 : List Char → List (Nat × List Char)
  | a :: b :: rest =>
    if a.isDigit ∧ b.isDigit then
      let y := 10 * digitVal a + digitVal b
      [(if y ≤ 68 then 2000 + y else 1900 + y, rest)]
    else []
  | _ => []

/-- First successful alternative of an ordered candidate list. -/
def firstSome {α : Type} : List (Option α) → Option α
  | [] => none
  | some a :: _ => some a
  | none :: rest => firstSome rest

/-- Match one literal character. -/
def matchLit (c : Char) : List Char → Option (List Char)
  | x :: rest => if x = c then some rest else none
  | [] => none

/-- A parsed calendar date. -/
structure PDate where
  year : Nat
  month : Nat
  day : Nat
deriving Repr, DecidableEq

/-- Gregorian leap-year rule. -/
def leapYear (y : Nat) : Bool :=
  (y % 4 == 0 && !(y % 100 == 0)) || y % 400 == 0

/-- Days in a month. -/
def daysInMonth (y m : Nat) : Nat :=
  if m = 2 then (if leapYear y then 29 else 28)
  else if m = 4 ∨ m = 6 ∨ m = 9 ∨ m = 11 then 30
  else 31

/-- Calendar validation performed by the datetime constructor: the year
must be at least 1 and the day must exist in the month. -/
def mkValidDate (y m d : Nat) : Option PDate :=
  if 1 ≤ y ∧ 1 ≤ d ∧ d ≤ daysInMonth y m then some ⟨y, m, d⟩ else none

/-- Format m/d/Y with backtracking over the directive alternatives. -/
def parseMDY (cs : List Char) : Option PDate :=
  firstSome <| (matchMonth cs).map fun mr =>
    (matchLit '/' mr.2).bind fun r2 =>
    firstSome <| (matchDay r2).map fun dr =>
      (matchLit '/' dr.2).bind fun r4 =>
      firstSome <| (matchYear4 r4).map fun yr =>
        if yr.2 = [] then mkValidDate yr.1 mr.1 dr.1 else none

/-- Format Y-m-d with backtracking over the directive alternatives. -/
def parseISO (cs : List Char) : Option PDate :=
  firstSome <| (matchYear4 cs).map fun yr =>
    (matchLit '-' yr.2).bind fun r2 =>
    firstSome <| (matchMonth r2).map fun mr =>
      (matchLit '-' mr.2).bind fun r4 =>
      firstSome <| (matchDay r4).map fun dr =>
        if dr.2 = [] then mkValidDate yr.1 mr.1 dr.1 else none

/-- Format m/d/y with backtracking over the directive alternatives. -/
def parseMDy2 (cs : List Char) : Option PDate :=
  firstSome <| (matchMonth cs).map fun mr =>
    (matchLit '/' mr.2).bind fun r2 =>
    firstSome <| (matchDay r2).map fun dr =>
      (matchLit '/' dr.2).bind fun r4 =>
      firstSome <| (matchYear2 r4).map fun yr =>
        if yr.2 = [] then mkValidDate yr.1 mr.1 dr.1 else none

/-- main._parse_date: falsy input yields None, otherwise the three
formats are tried in order. -/
def _parse_date (s : String) : Option PDate :=
  if s = "" then none
  else firstSome [parseMDY s.data, parseISO s.data, parseMDy2 s.data]

/-- Full English month name, as strftime directive B renders it. -/
def monthName : Nat → String
  | 1 => "January" | 2 => "February" | 3 => "March" | 4 => "April"
  | 5 => "May" | 6 => "June" | 7 => "July" | 8 => "August"
  | 9 => "September" | 10 => "October" | 11 => "November" | 12 => "December"
  | _ => ""

/-- Worksheet title used by the upload: strftime with B, a space and Y. -/
def worksheetTitle (d : PDate) : String :=
  monthName d.month ++ " " ++ toString d.year

/-- Month worksheet a receipt is routed to: none when the date field is
falsy or unparseable (the upload loop skips the receipt then). -/
def receiptTitle (r : Receipt) : Option String :=
  let dateStr := r.date.getD ""
  if dateStr = "" then none
  else (_parse_date dateStr).map worksheetTitle

/-! ## Upload to the external spreadsheet (src/main.py lines 530-623)

The external service is modelled by two streams of call outcomes: one
entry per get_or_create_worksheet plus get_existing_receipts call (none
models the exception path, some ks the fetched duplicate-key set) and
one entry per append_receipt call (false models the exception path).
Exhausted streams behave as failures.  The fold state records the
remaining streams, the per-title in-memory key sets (the worksheets
dict), the history of successful fetches with the key set as fetched,
the appended rows in order, and the reported counter. -/

/-- The duplicate key of the upload path: str of the date, amount and
vendor fields. -/
abbrev SheetKey := String × String × String

/-- Duplicate key of one receipt. -/
def tripleKey (r : Receipt) : SheetKey :=
  (pyStrOpt r.date, pyStrOpt r.amount, pyStrOpt r.vendor)

/-- Outcome streams of the external service. -/
structure SheetsEnv where
  fetches : List (Option (List SheetKey))
  appends : List Bool
deriving Repr, DecidableEq

/-- State of the upload loop. -/
structure UploadState where
  env : SheetsEnv
  cache : List (String × List SheetKey)
  fetched : List (String × List SheetKey)
  appended : List (String × Receipt)
  count : Nat
deriving Repr, DecidableEq

/-- Consume the next worksheet-fetch outcome. -/
def popFetch (env : SheetsEnv) : Option (List SheetKey) × SheetsEnv :=
  match env.fetches with
  | [] => (none, env)
  | o :: rest => (o, { env with fetches := rest })

/-- Consume the next append outcome. -/
def popAppend (env : SheetsEnv) : Bool × SheetsEnv :=
  match env.appends with
  | [] => (false, env)
  | b :: rest => (b, { env with appends := rest })

/-- Worksheet-access step of the upload loop: a cached title is reused;
otherwise the worksheet and its existing keys are fetched, and on
failure the receipt is skipped (the title stays uncached, so a later
receipt retries). -/
def fetchPhase (st : UploadState) (title : String) : UploadState × Bool :=
  match lookupAssoc st.cache title with
  | some _ => (st, true)
  | none =>
    let (res, env') := popFetch st.env
    match res with
    | none => ({ st with env := env' }, false)
    | some ks =>
      ({ st with
          env := env',
          cache := insertAssoc st.cache title ks,
          fetched := st.fetched ++ [(title, ks)] }, true)

/-- Duplicate-check and append step of the upload loop: a key already
in the in-memory set is skipped; otherwise append_receipt is attempted,
and on success the key is added to the set and the row recorded. -/
def appendPhase (st : UploadState) (title : String) (r : Receipt) :
    UploadState :=
  match lookupAssoc st.cache title with
  | none => st
  | some ks =>
    if tripleKey r ∈ ks then st
    else
      let (ok, env') := popAppend st.env
      if ok then
        { st with
          env := env',
          cache := insertAssoc st.cache title (ks ++ [tripleKey r]),
          appended := st.appended ++ [(title, r)],
          count := st.count + 1 }
      else { st with env := env' }

/-- One iteration of the upload loop over a receipt: skip receipts with
a falsy or unparseable date, then fetch and append as above. -/
def uploadStep (st : UploadState) (r : Receipt) : UploadState :=
  match receiptTitle r with
  | none => st
  | some title =>
    let p := fetchPhase st title
    if p.2 then appendPhase p.1 title r else p.1

/-- Initial upload state. -/
def initUploadState (env : SheetsEnv) : UploadState := ⟨env, [], [], [], 0⟩

/-- main.upload_to_sheets: excluded receipts are filtered out without
warnings, then each receipt is processed in order. -/
def upload_to_sheets (env : SheetsEnv) (receipts : List Receipt) :
    UploadState :=
  ((_filter_excluded_receipts receipts false).1).foldl uploadStep
    (initUploadState env)

/-! ## Supporting lemmas -/

theorem foldl_applyWrite_appendRows (rows : List (List String)) :
    ∀ ws, List.foldl applyWrite ws (rows.map WriteOp.appendRow) = ws ++ rows := by
  induction rows with
  | nil => intro ws; simp
  | cons r rest ih =>
    intro ws
    simp only [List.map_cons, List.foldl_cons, applyWrite, ih]
    simp

theorem has_valid_headers_header_cons (rs : List (List String)) :
    has_valid_headers (EXPECTED_HEADER :: rs) = true := rfl

theorem fix_worksheet_step_of_valid (w : List (List String))
    (h : has_valid_headers w = true) : fix_worksheet_step w = ⟨w, [], 0⟩ := by
  unfold fix_worksheet_step
  simp [h]

/-! ## Claim C9 -/

/-- C9 counterexample: the canonical category enumeration holds 23
labels, not the 22 the claim states. -/
theorem canonical_categories_count_not_22 :
    CANONICAL_CATEGORIES.length = 23 ∧ ¬ CANONICAL_CATEGORIES.length = 22 := by
  constructor <;> decide

/-- C9 (amended): the fixed enumeration of canonical category labels
contains exactly 23 labels, including Food & Restaurants, Groceries and
Other. -/
theorem canonical_categories_23_with_samples :
    CANONICAL_CATEGORIES.length = 23 ∧
    "Food & Restaurants" ∈ CANONICAL_CATEGORIES ∧
    "Groceries" ∈ CANONICAL_CATEGORIES ∧
    "Other" ∈ CANONICAL_CATEGORIES := by
  refine ⟨by decide, by decide, by decide, by decide⟩

/-! ## Claim C1 -/

/-- C1 counterexample: save_state opens the target with mode w and
writes in place, so with previous content OLDSTATE the crash point
after the truncating open and before the write leaves the file empty;
not every crash point preserves the previously persisted file. -/
theorem save_state_crash_point_loses_old_file :
    crashContents (some "OLDSTATE") (save_state_ops "NEWSTATE")
      = [some "OLDSTATE", some "", some "NEWSTATE"] ∧
    ¬ (∀ c ∈ crashContents (some "OLDSTATE") (save_state_ops "NEWSTATE"),
        c = some "OLDSTATE" ∨ c = some "NEWSTATE") := by
  constructor
  · decide
  · decide

/-- C1 (amended): save fully overwrites the persisted state file, but
by truncating the target in place and then writing the complete
serialized state, not via a temporary file and rename; the observable
contents at the crash points are exactly the old content, then the
empty file, then the full new content. -/
theorem save_state_overwrites_in_place :
    ∀ (old : Option String) (serialized : String),
      crashContents old (save_state_ops serialized)
        = [old, some "", some serialized] := by
  intro old serialized
  simp [crashContents, save_state_ops, List.scanl, applyFileOp]

/-! ## Claim C7 -/

/-- C7 (confirmed): the per-worksheet repair pass is idempotent.  After
one pass the worksheet's first row is the canonical header, so a second
pass is skipped with zero writes and leaves the grid unchanged. -/
theorem fix_worksheet_step_idempotent :
    ∀ ws : List (List String),
      has_valid_headers (fix_worksheet_step ws).ws = true ∧
      (fix_worksheet_step (fix_worksheet_step ws).ws).writes = [] ∧
      (fix_worksheet_step (fix_worksheet_step ws).ws).ws
        = (fix_worksheet_step ws).ws := by
  intro ws
  have hvalid : has_valid_headers (fix_worksheet_step ws).ws = true := by
    unfold fix_worksheet_step
    by_cases h : has_valid_headers ws
    · simp [h]
    · simp only [h, if_false, Bool.false_eq_true]
      unfold fix_misaligned_worksheet
      by_cases hx : (extract_receipts_from_misaligned_worksheet ws).isEmpty
      · simp [hx, h, applyWrite, has_valid_headers_header_cons]
      · simp only [hx, if_false, Bool.false_eq_true]
        have : List.foldl applyWrite ws
            (WriteOp.clear :: WriteOp.appendRow EXPECTED_HEADER ::
              (extract_receipts_from_misaligned_worksheet ws).map WriteOp.appendRow)
            = EXPECTED_HEADER :: extract_receipts_from_misaligned_worksheet ws := by
          simp only [List.foldl_cons, applyWrite]
          rw [foldl_applyWrite_appendRows]
          simp
        simp only [this]
        exact has_valid_headers_header_cons _
  refine ⟨hvalid, ?_, ?_⟩ <;> rw [fix_worksheet_step_of_valid _ hvalid]

/-! ## Claim C6 -/

theorem filter_excluded_characterization (pw : Bool) : ∀ rs : List Receipt,
    (_filter_excluded_receipts rs pw).1
      = rs.filter (fun r => !(r.excludeFromTable.getD false)) ∧
    (_filter_excluded_receipts rs pw).2.1
      = rs.filter (fun r => r.excludeFromTable.getD false) ∧
    (_filter_excluded_receipts rs pw).2.2
      = if pw then
          (rs.filter (fun r => r.excludeFromTable.getD false)).map warningOf
        else [] := by
  intro rs
  induction rs with
  | nil => refine ⟨rfl, rfl, by cases pw <;> rfl⟩
  | cons r rest ih =>
    obtain ⟨ih1, ih2, ih3⟩ := ih
    by_cases h : r.excludeFromTable.getD false
    · refine ⟨?_, ?_, ?_⟩
      · simp [_filter_excluded_receipts, h, ih1, ih2, ih3]
      · simp [_filter_excluded_receipts, h, ih1, ih2, ih3]
      · simp [_filter_excluded_receipts, h, ih1, ih2, ih3]
        cases pw <;> simp
    · refine ⟨?_, ?_, ?_⟩ <;>
        · simp [_filter_excluded_receipts, h, ih1, ih2, ih3]

/-- C6 counterexample: a receipt excluded with a present but blank
exclusionReason field produces a warning whose reason is the blank
string, not No reason provided: the default of dict.get applies only
when the key is absent. -/
theorem exclusion_warning_blank_reason_counterexample :
    (_filter_excluded_receipts
        [{ vendor := some "V", excludeFromTable := some true,
           exclusionReason := some "" }] true).2.2
      = [⟨"V", none, ""⟩] ∧
    ¬ ("" : String) = "No reason provided" := by
  constructor
  · rfl
  · decide

/-- C6 (amended): partition puts a receipt into the excluded list
exactly when its excludeFromTable field is truthy (absent counts as
false), both outputs preserve input order (they are filters of the
input), the partition does not depend on whether warnings are printed,
one warning is emitted per excluded receipt in order, and the warning's
reason falls back to No reason provided exactly when the
exclusionReason field is absent; a present blank reason is reported as
the blank string. -/
theorem filter_excluded_partition_and_warnings :
    ∀ (rs : List Receipt) (pw : Bool),
      (_filter_excluded_receipts rs pw).1
        = rs.filter (fun r => !(r.excludeFromTable.getD false)) ∧
      (_filter_excluded_receipts rs pw).2.1
        = rs.filter (fun r => r.excludeFromTable.getD false) ∧
      (_filter_excluded_receipts rs true).1 = (_filter_excluded_receipts rs false).1 ∧
      (_filter_excluded_receipts rs true).2.1
        = (_filter_excluded_receipts rs false).2.1 ∧
      (_filter_excluded_receipts rs true).2.2
        = ((_filter_excluded_receipts rs true).2.1).map warningOf ∧
      (_filter_excluded_receipts rs false).2.2 = [] ∧
      (∀ r : Receipt, (warningOf r).reason
        = match r.exclusionReason with
          | none => "No reason provided"
          | some s => s) := by
  intro rs pw
  obtain ⟨h1, h2, h3⟩ := filter_excluded_characterization pw rs
  obtain ⟨t1, t2, t3⟩ := filter_excluded_characterization true rs
  obtain ⟨f1, f2, f3⟩ := filter_excluded_characterization false rs
  refine ⟨h1, h2, t1.trans f1.symm, t2.trans f2.symm, ?_, ?_, ?_⟩
  · rw [t3, t2]; simp
  · rw [f3]; simp
  · intro r
    cases hr : r.exclusionReason <;> simp [warningOf, hr]

/-! ## Claim C8 -/

theorem lookupAssoc_mem {α : Type} (m : List (String × α)) (k : String) (v : α)
    (h : lookupAssoc m k = some v) : (k, v) ∈ m := by
  unfold lookupAssoc at h
  obtain ⟨p, hp, hv⟩ := Option.map_eq_some'.mp h
  have hmem := List.mem_of_find?_eq_some hp
  have hkey : p.1 = k := by simpa using List.find?_some hp
  obtain ⟨a, b⟩ := p
  simp only at hkey hv
  subst hkey
  subst hv
  exact hmem

/-- Statement-side restatement of the claim's per-element mapping: a
None or blank raw value is dropped, any other value is normalized,
looked up and defaulted to Other. -/
def normalizeOne (raw : Option String) : Option String :=
  raw.bind (fun v => if pyStrip v = "" then none
    else some ((lookupAssoc CATEGORY_LOOKUP (_category_key v)).getD "Other"))

/-- Statement-side restatement of the claim's dedup discipline: keep
first occurrences, skipping anything already seen. -/
def dedupNew (seen : List String) : List String → List String
  | [] => []
  | x :: xs => if x ∈ seen then dedupNew seen xs else x :: dedupNew (x :: seen) xs

theorem normCatsGo_eq_dedupNew : ∀ (cats : List (Option String)) (seen : List String),
    normCatsGo seen cats = dedupNew seen (cats.filterMap normalizeOne) := by
  intro cats
  induction cats with
  | nil => intro seen; rfl
  | cons raw rest ih =>
    intro seen
    match raw with
    | none => simpa [normalizeOne] using ih seen
    | some v =>
      by_cases hb : pyStrip v = ""
      · simpa [normCatsGo, normalizeOne, hb] using ih seen
      · simp only [normCatsGo, normalizeOne, hb, if_neg, List.filterMap_cons,
          Option.bind_some, if_false]
        by_cases hs : (lookupAssoc CATEGORY_LOOKUP (_category_key v)).getD "Other" ∈ seen
        · simp [dedupNew, hs, hb, ih seen]
        · simp [dedupNew, hs, hb, ih]

theorem dedupNew_nodup_disjoint : ∀ (l seen : List String),
    (dedupNew seen l).Nodup ∧ ∀ x ∈ dedupNew seen l, x ∉ seen := by
  intro l
  induction l with
  | nil => intro seen; exact ⟨List.nodup_nil, by simp [dedupNew]⟩
  | cons x xs ih =>
    intro seen
    by_cases hx : x ∈ seen
    · simpa [dedupNew, hx] using ih seen
    · obtain ⟨hn, hd⟩ := ih (x :: seen)
      simp only [dedupNew, hx, if_false]
      constructor
      · refine List.nodup_cons.mpr ⟨?_, hn⟩
        intro hmem
        exact hd x hmem (List.mem_cons_self x seen)
      · intro y hy
        rcases List.mem_cons.mp hy with h | h
        · exact h ▸ hx
        · intro hseen
          exact hd y h (List.mem_cons_of_mem x hseen)

theorem dedupNew_subset : ∀ (l seen : List String) (x : String),
    x ∈ dedupNew seen l → x ∈ l := by
  intro l
  induction l with
  | nil => intro seen x h; simp [dedupNew] at h
  | cons y ys ih =>
    intro seen x h
    by_cases hy : y ∈ seen
    · simp only [dedupNew, hy, if_true] at h
      exact List.mem_cons_of_mem y (ih seen x h)
    · simp only [dedupNew, hy, if_false] at h
      rcases List.mem_cons.mp h with h | h
      · exact h ▸ List.mem_cons_self y ys
      · exact List.mem_cons_of_mem y (ih (y :: seen) x h)

theorem lookup_values_canonical :
    ∀ p ∈ CATEGORY_LOOKUP, p.2 ∈ CANONICAL_CATEGORIES := by decide

theorem normalizeOne_canonical (raw : Option String) (y : String)
    (h : normalizeOne raw = some y) : y ∈ CANONICAL_CATEGORIES := by
  match raw with
  | none => simp [normalizeOne] at h
  | some v =>
    by_cases hb : pyStrip v = ""
    · simp [normalizeOne, hb] at h
    · have hy : (lookupAssoc CATEGORY_LOOKUP (_category_key v)).getD "Other" = y := by
        simpa [normalizeOne, hb] using h
      cases hl : lookupAssoc CATEGORY_LOOKUP (_category_key v) with
      | none =>
        rw [hl] at hy
        simp only [Option.getD_none] at hy
        rw [← hy]
        decide
      | some c =>
        rw [hl] at hy
        simp only [Option.getD_some] at hy
        rw [← hy]
        exact lookup_values_canonical _ (lookupAssoc_mem _ _ _ hl)

/-- C8 (confirmed): normalize skips None and blank raw entries,
normalizes the rest through the lookup with Other as fallback, never
appends a label already in the output (first-seen order), returns empty
output on empty input, and every output element is a canonical label. -/
theorem normalize_categories_spec :
    normalize_categories none = [] ∧
    normalize_categories (some []) = [] ∧
    (∀ cats, normalize_categories (some cats)
      = dedupNew [] (cats.filterMap normalizeOne)) ∧
    (∀ c, (normalize_categories c).Nodup) ∧
    (∀ c l, l ∈ normalize_categories c → l ∈ CANONICAL_CATEGORIES) := by
  have hchar : ∀ cats, normalize_categories (some cats)
      = dedupNew [] (cats.filterMap normalizeOne) := by
    intro cats
    match cats with
    | [] => rfl
    | raw :: rest =>
      simpa [normalize_categories] using normCatsGo_eq_dedupNew (raw :: rest) []
  refine ⟨rfl, rfl, hchar, ?_, ?_⟩
  · intro c
    match c with
    | none => exact List.nodup_nil
    | some cats =>
      rw [hchar cats]
      exact (dedupNew_nodup_disjoint _ []).1
  · intro c l hl
    match c with
    | none => simp [normalize_categories] at hl
    | some cats =>
      rw [hchar cats] at hl
      have := dedupNew_subset _ [] l hl
      obtain ⟨raw, _, hr⟩ := List.mem_filterMap.mp this
      exact normalizeOne_canonical raw l hr

/-- C8 witness: the canonicality conjunct applied at a concrete
unmapped raw category, which normalizes to Other. -/
theorem normalize_categories_spec_witness :
    "Other" ∈ CANONICAL_CATEGORIES :=
  normalize_categories_spec.2.2.2.2 (some [some "Random"]) "Other" (by decide)

/-! ## Claim C4 -/

theorem insertSortedEntry_perm (e : DirEntry) :
    ∀ l, (insertSortedEntry e l).Perm (e :: l) := by
  intro l
  induction l with
  | nil => exact List.Perm.refl _
  | cons x xs ih =>
    by_cases h : x.name < e.name
    · simp only [insertSortedEntry, h, if_true]
      exact (ih.cons x).trans (List.Perm.swap e x xs)
    · simp only [insertSortedEntry, h, if_false]
      exact List.Perm.refl _

theorem sortEntries_perm : ∀ l, (sortEntries l).Perm l := by
  intro l
  induction l with
  | nil => exact List.Perm.refl _
  | cons x xs ih =>
    exact (insertSortedEntry_perm x (sortEntries xs)).trans (ih.cons x)

theorem sorted_insertSortedEntry (e : DirEntry) :
    ∀ l, List.Sorted (fun a b : DirEntry => a.name ≤ b.name) l →
      List.Sorted (fun a b : DirEntry => a.name ≤ b.name)
        (insertSortedEntry e l) := by
  intro l
  induction l with
  | nil => intro _; simp [insertSortedEntry]
  | cons x xs ih =>
    intro hs
    obtain ⟨hx, hxs⟩ := List.pairwise_cons.mp hs
    by_cases h : x.name < e.name
    · simp only [insertSortedEntry, h, if_true]
      refine List.pairwise_cons.mpr ⟨?_, ih hxs⟩
      intro y hy
      have hy' := (insertSortedEntry_perm e xs).mem_iff.mp hy
      rcases List.mem_cons.mp hy' with rfl | hmem
      · exact le_of_lt h
      · exact hx y hmem
    · simp only [insertSortedEntry, h, if_false]
      have hex : e.name ≤ x.name := le_of_not_lt h
      refine List.pairwise_cons.mpr ⟨?_, hs⟩
      intro y hy
      rcases List.mem_cons.mp hy with rfl | hmem
      · exact hex
      · exact hex.trans (hx y hmem)

theorem sortEntries_sorted :
    ∀ l, List.Sorted (fun a b : DirEntry => a.name ≤ b.name) (sortEntries l) := by
  intro l
  induction l with
  | nil => simp [sortEntries]
  | cons x xs ih => exact sorted_insertSortedEntry x (sortEntries xs) ih

/-- Statement-side restatement of the claim's keep condition: a kept
entry has a supported image extension, is a regular file, and is not an
unchanged already-processed file unless reprocessing is allowed. -/
def keepEntry (seen : List (String × String)) (allow : Bool) (e : DirEntry) :
    Bool :=
  is_valid_image e.name && e.isFile
    && (allow || !(lookupAssoc seen e.name == some e.hash))

theorem planLoop_eq_filter (seen : List (String × String)) (allow : Bool) :
    ∀ es, planLoop seen allow es
      = (es.filter (keepEntry seen allow)).map
          (fun e => (e.name, RECEIPTS_DIR ++ "/" ++ e.name, e.hash)) := by
  intro es
  induction es with
  | nil => rfl
  | cons e rest ih =>
    cases h1 : is_valid_image e.name <;>
      cases h2 : e.isFile <;>
      cases h4 : lookupAssoc seen e.name == some e.hash <;>
      cases h3 : allow <;>
      rw [h3] at ih <;>
      simp [planLoop, keepEntry, h1, h2, h3, h4, ih]

/-- C4 (confirmed): the directory-mode plan is the name-sorted listing
of the directory, restricted to regular files with a supported image
extension, dropping exactly the files whose recorded fingerprint equals
the fresh one when reprocessing is off, each kept file paired with its
fresh fingerprint; a directory holding one unchanged known file yields
an empty plan without reprocessing and a singleton plan with it. -/
theorem plan_directory_mode_spec :
    (∀ (entries : List DirEntry) (seen : List (String × String)) (allow : Bool),
      get_receipts_to_process_dir entries seen allow
        = ((sortEntries entries).filter (keepEntry seen allow)).map
            (fun e => (e.name, RECEIPTS_DIR ++ "/" ++ e.name, e.hash)) ∧
      (sortEntries entries).Perm entries ∧
      List.Sorted (fun a b : DirEntry => a.name ≤ b.name) (sortEntries entries)) ∧
    get_receipts_to_process_dir [⟨"a.jpg", true, "h1"⟩] [("a.jpg", "h1")] false
      = [] ∧
    get_receipts_to_process_dir [⟨"a.jpg", true, "h1"⟩] [("a.jpg", "h1")] true
      = [("a.jpg", "data/receipts/a.jpg", "h1")] := by
  refine ⟨?_, by decide, by decide⟩
  intro entries seen allow
  exact ⟨planLoop_eq_filter seen allow (sortEntries entries),
    sortEntries_perm entries, sortEntries_sorted entries⟩

/-! ## Association-map lemmas for the dedup and merge proofs -/

theorem anyKey_eq_true_iff {α : Type} (m : List (String × α)) (k : String) :
    m.any (fun p => p.1 = k) = true ↔ ∃ p ∈ m, p.1 = k := by
  simp [List.any_eq_true]

theorem lookupAssoc_cons {α : Type} (p : String × α) (m : List (String × α))
    (k : String) :
    lookupAssoc (p :: m) k = if p.1 = k then some p.2 else lookupAssoc m k := by
  by_cases h : p.1 = k
  · simp [lookupAssoc, List.find?, h]
  · simp [lookupAssoc, List.find?, h]

theorem lookup_map_overwrite {α : Type} (k : String) (v : α) :
    ∀ m : List (String × α),
      lookupAssoc (m.map (fun p => if p.1 = k then (k, v) else p)) k
        = if m.any (fun p => p.1 = k) then some v else none := by
  intro m
  induction m with
  | nil => rfl
  | cons p m' ih =>
    by_cases hp : p.1 = k
    · simp [List.map_cons, lookupAssoc_cons, hp, List.any_cons]
    · have hd : decide (p.1 = k) = false := by simp [hp]
      simp [List.map_cons, lookupAssoc_cons, hp, List.any_cons, ih]
      simp only [hd, Bool.false_or]

theorem lookup_map_overwrite_ne {α : Type} (k k' : String) (v : α)
    (hne : k' ≠ k) : ∀ m : List (String × α),
      lookupAssoc (m.map (fun p => if p.1 = k then (k, v) else p)) k'
        = lookupAssoc m k' := by
  intro m
  induction m with
  | nil => rfl
  | cons p m' ih =>
    by_cases hp : p.1 = k
    · have hk : ¬ k = k' := fun h => hne h.symm
      have hp' : ¬ p.1 = k' := fun h => hne (h ▸ hp.symm ▸ rfl)
      simp [List.map_cons, lookupAssoc_cons, hp, hk, hp', ih]
    · simp [List.map_cons, lookupAssoc_cons, hp, ih]

theorem lookup_append_single {α : Type} (k : String) (v : α) :
    ∀ m : List (String × α), (∀ p ∈ m, p.1 ≠ k) →
      lookupAssoc (m ++ [(k, v)]) k = some v := by
  intro m
  induction m with
  | nil => simp [lookupAssoc_cons]
  | cons p m' ih =>
    intro h
    have hp : p.1 ≠ k := h p (List.mem_cons_self p m')
    simp only [List.cons_append, lookupAssoc_cons, hp, if_false]
    exact ih fun q hq => h q (List.mem_cons_of_mem p hq)

theorem lookup_append_single_ne {α : Type} (k k' : String) (v : α)
    (hne : k' ≠ k) : ∀ m : List (String × α),
      lookupAssoc (m ++ [(k, v)]) k' = lookupAssoc m k' := by
  intro m
  induction m with
  | nil =>
    have : ¬ k = k' := fun h => hne h.symm
    simp [lookupAssoc_cons, this, lookupAssoc]
  | cons p m' ih =>
    by_cases hp : p.1 = k'
    · simp [List.cons_append, lookupAssoc_cons, hp]
    · simp [List.cons_append, lookupAssoc_cons, hp, ih]

theorem lookup_insertAssoc_self {α : Type} (m : List (String × α)) (k : String)
    (v : α) : lookupAssoc (insertAssoc m k v) k = some v := by
  unfold insertAssoc
  by_cases h : m.any (fun p => p.1 = k)
  · simp only [h, if_true]
    rw [lookup_map_overwrite]
    simp [h]
  · simp only [h, if_false]
    refine lookup_append_single k v m ?_
    intro p hp hpk
    exact h (anyKey_eq_true_iff m k |>.mpr ⟨p, hp, hpk⟩)

theorem lookup_insertAssoc_ne {α : Type} (m : List (String × α))
    (k k' : String) (v : α) (hne : k' ≠ k) :
    lookupAssoc (insertAssoc m k v) k' = lookupAssoc m k' := by
  unfold insertAssoc
  by_cases h : m.any (fun p => p.1 = k)
  · simp only [h, if_true]
    exact lookup_map_overwrite_ne k k' v hne m
  · simp only [h, if_false]
    exact lookup_append_single_ne k k' v hne m

theorem mem_insertAssoc {α : Type} (m : List (String × α)) (k : String) (v : α)
    (q : String × α) (hq : q ∈ insertAssoc m k v) :
    q = (k, v) ∨ (q ∈ m ∧ q.1 ≠ k) := by
  unfold insertAssoc at hq
  by_cases h : m.any (fun p => p.1 = k)
  · rw [if_pos h] at hq
    obtain ⟨p, hpm, hpq⟩ := List.mem_map.mp hq
    by_cases hp : p.1 = k
    · left
      rw [← hpq, if_pos hp]
    · right
      rw [← hpq, if_neg hp]
      exact ⟨hpm, hp⟩
  · rw [if_neg h] at hq
    rcases List.mem_append.mp hq with hm | hs
    · right
      refine ⟨hm, fun hk => ?_⟩
      exact h (anyKey_eq_true_iff m k |>.mpr ⟨q, hm, hk⟩)
    · left
      simpa using hs

theorem insertAssoc_map_fst {α : Type} (m : List (String × α)) (k : String)
    (v : α) :
    (insertAssoc m k v).map Prod.fst
      = if m.any (fun p => p.1 = k) then m.map Prod.fst
        else m.map Prod.fst ++ [k] := by
  unfold insertAssoc
  by_cases h : m.any (fun p => p.1 = k)
  · simp only [h, if_true, List.map_map]
    refine List.map_congr_left ?_
    intro p _
    by_cases hp : p.1 = k
    · simp [Function.comp, hp]
    · simp [Function.comp, hp]
  · simp [h]

theorem key_mem_insertAssoc {α : Type} (m : List (String × α)) (k : String)
    (v : α) : k ∈ (insertAssoc m k v).map Prod.fst := by
  rw [insertAssoc_map_fst]
  by_cases h : m.any (fun p => p.1 = k)
  · rw [if_pos h]
    obtain ⟨p, hpm, hpk⟩ := (anyKey_eq_true_iff m k).mp h
    exact hpk ▸ List.mem_map_of_mem Prod.fst hpm
  · rw [if_neg h]
    simp

theorem keys_mono_insertAssoc {α : Type} (m : List (String × α))
    (k k' : String) (v : α) (h : k' ∈ m.map Prod.fst) :
    k' ∈ (insertAssoc m k v).map Prod.fst := by
  rw [insertAssoc_map_fst]
  by_cases hc : m.any (fun p => p.1 = k)
  · rwa [if_pos hc]
  · rw [if_neg hc]
    exact List.mem_append_left _ h

theorem nodup_keys_insertAssoc {α : Type} (m : List (String × α)) (k : String)
    (v : α) (h : (m.map Prod.fst).Nodup) :
    ((insertAssoc m k v).map Prod.fst).Nodup := by
  rw [insertAssoc_map_fst]
  by_cases hc : m.any (fun p => p.1 = k)
  · rwa [if_pos hc]
  · rw [if_neg hc]
    rw [List.nodup_append]
    refine ⟨h, List.nodup_singleton k, ?_⟩
    intro a ha hb
    have hak : a = k := by simpa using hb
    obtain ⟨p, hpm, hpk⟩ := List.mem_map.mp ha
    exact hc (anyKey_eq_true_iff m k |>.mpr ⟨p, hpm, by rw [hpk, hak]⟩)

/-! ## Claim C3 -/

theorem buildReceiptMap_append (init : List (String × Receipt))
    (rs : List Receipt) (r : Receipt) :
    buildReceiptMap init (rs ++ [r])
      = insertAssoc (buildReceiptMap init rs) (_receipt_key r) r := by
  simp [buildReceiptMap, List.foldl_append]

theorem lastWithKey_append (k : String) (rs : List Receipt) (r : Receipt) :
    lastWithKey k (rs ++ [r])
      = if _receipt_key r = k then some r else lastWithKey k rs := by
  unfold lastWithKey
  rw [List.filter_append]
  by_cases h : _receipt_key r = k
  · simp [h]
  · simp [h]

theorem buildMap_entries : ∀ rs : List Receipt, ∀ q ∈ buildReceiptMap [] rs,
    _receipt_key q.2 = q.1 ∧ lastWithKey q.1 rs = some q.2 := by
  intro rs
  induction rs using List.reverseRecOn with
  | nil => intro q hq; simp [buildReceiptMap] at hq
  | append_singleton rs r ih =>
    intro q hq
    rw [buildReceiptMap_append] at hq
    rcases mem_insertAssoc _ _ _ q hq with rfl | ⟨hm, hne⟩
    · exact ⟨rfl, by rw [lastWithKey_append]; simp⟩
    · obtain ⟨hkey, hlast⟩ := ih q hm
      refine ⟨hkey, ?_⟩
      rw [lastWithKey_append, if_neg (fun h => hne h.symm), hlast]

theorem buildMap_keys_nodup : ∀ rs : List Receipt,
    ((buildReceiptMap [] rs).map Prod.fst).Nodup := by
  intro rs
  induction rs using List.reverseRecOn with
  | nil => simp [buildReceiptMap]
  | append_singleton rs r ih =>
    rw [buildReceiptMap_append]
    exact nodup_keys_insertAssoc _ _ _ ih

theorem buildMap_covers : ∀ (rs : List Receipt) (r : Receipt), r ∈ rs →
    _receipt_key r ∈ (buildReceiptMap [] rs).map Prod.fst := by
  intro rs
  induction rs using List.reverseRecOn with
  | nil => intro r hr; simp at hr
  | append_singleton rs r' ih =>
    intro r hr
    rw [buildReceiptMap_append]
    rcases List.mem_append.mp hr with hm | hs
    · exact keys_mono_insertAssoc _ _ _ _ (ih r hm)
    · have : r = r' := by simpa using hs
      subst this
      exact key_mem_insertAssoc _ _ _

/-- C3 (confirmed): the dedup key prefers a truthy source_hash, then a
truthy id, then the composite key; dedupe keeps exactly one receipt per
distinct key, namely the last occurrence of that key in input order. -/
theorem receipt_key_and_dedupe_spec :
    (∀ (r : Receipt) (s : String), r.source_hash = some s → s ≠ "" →
      _receipt_key r = s) ∧
    (∀ (r : Receipt) (i : String),
      (r.source_hash = none ∨ r.source_hash = some "") →
      r.id = some i → i ≠ "" → _receipt_key r = i) ∧
    (∀ r : Receipt, (r.source_hash = none ∨ r.source_hash = some "") →
      (r.id = none ∨ r.id = some "") → _receipt_key r = compositeKey r) ∧
    (∀ rs : List Receipt, ((dedupe_receipts rs).map _receipt_key).Nodup) ∧
    (∀ (rs : List Receipt) (r : Receipt), r ∈ dedupe_receipts rs →
      lastWithKey (_receipt_key r) rs = some r) ∧
    (∀ (rs : List Receipt) (r : Receipt), r ∈ rs →
      ∃ r' ∈ dedupe_receipts rs, _receipt_key r' = _receipt_key r) := by
  refine ⟨?_, ?_, ?_, ?_, ?_, ?_⟩
  · intro r s hs hne
    simp [_receipt_key, truthyString, hs, hne]
  · intro r i hsh hid hne
    rcases hsh with h | h <;>
      simp [_receipt_key, truthyString, h, hid, hne]
  · intro r hsh hid
    rcases hsh with h | h <;> rcases hid with h' | h' <;>
      simp [_receipt_key, truthyString, h, h']
  · intro rs
    have hmap : (dedupe_receipts rs).map _receipt_key
        = (buildReceiptMap [] rs).map Prod.fst := by
      unfold dedupe_receipts
      rw [List.map_map]
      refine List.map_congr_left ?_
      intro q hq
      exact (buildMap_entries rs q hq).1
    rw [hmap]
    exact buildMap_keys_nodup rs
  · intro rs r hr
    obtain ⟨q, hq, hqr⟩ := List.mem_map.mp hr
    obtain ⟨hkey, hlast⟩ := buildMap_entries rs q hq
    rw [← hqr, hkey]
    exact hlast
  · intro rs r hr
    have hk := buildMap_covers rs r hr
    obtain ⟨q, hq, hq1⟩ := List.mem_map.mp hk
    refine ⟨q.2, List.mem_map_of_mem Prod.snd hq, ?_⟩
    rw [(buildMap_entries rs q hq).1, hq1]

/-- C3 witness: the key-priority and dedup conjuncts applied at
concrete receipts. -/
theorem receipt_key_and_dedupe_spec_witness :
    _receipt_key { source_hash := some "abc" } = "abc" ∧
    _receipt_key { source_hash := some "", id := some "id1" } = "id1" ∧
    _receipt_key { amount := some "12.5" }
      = compositeKey { amount := some "12.5" } ∧
    lastWithKey
        (_receipt_key ({ source_hash := some "abc", amount := some "2" } : Receipt))
        [{ source_hash := some "abc", amount := some "1" },
         { source_hash := some "abc", amount := some "2" }]
      = some { source_hash := some "abc", amount := some "2" } ∧
    ∃ r' ∈ dedupe_receipts [({ source_hash := some "abc" } : Receipt)],
      _receipt_key r' = _receipt_key ({ source_hash := some "abc" } : Receipt) :=
  ⟨receipt_key_and_dedupe_spec.1 _ "abc" rfl (by decide),
   receipt_key_and_dedupe_spec.2.1 _ "id1" (Or.inr rfl) rfl (by decide),
   receipt_key_and_dedupe_spec.2.2.1 _ (Or.inl rfl) (Or.inl rfl),
   receipt_key_and_dedupe_spec.2.2.2.2.1 _ _ (by decide),
   receipt_key_and_dedupe_spec.2.2.2.2.2 _ _ (by decide)⟩

/-! ## Claim C2 -/

theorem lookup_buildMap (k : String) (init : List (String × Receipt)) :
    ∀ rs : List Receipt, (∃ r ∈ rs, _receipt_key r = k) →
      lookupAssoc (buildReceiptMap init rs) k = lastWithKey k rs := by
  intro rs
  induction rs using List.reverseRecOn with
  | nil => intro h; simp at h
  | append_singleton rs r ih =>
    intro h
    rw [buildReceiptMap_append, lastWithKey_append]
    by_cases hk : _receipt_key r = k
    · subst hk
      rw [if_pos rfl]
      exact lookup_insertAssoc_self _ _ _
    · rw [if_neg hk, lookup_insertAssoc_ne _ _ _ _ (fun h' => hk h'.symm)]
      apply ih
      obtain ⟨r', hr', hkr'⟩ := h
      rcases List.mem_append.mp hr' with hm | hs
      · exact ⟨r', hm, hkr'⟩
      · exfalso
        have heq : r' = r := by simpa using hs
        exact hk (heq ▸ hkr')

/-- C2 (confirmed): loading, merging a receipt batch, saving and
loading again yields a state whose receipts section answers every input
receipt's derived key with the last input receipt carrying that key. -/
theorem state_roundtrip_merge_spec :
    ∀ (doc : Option StateDoc) (rs : List Receipt) (r : Receipt), r ∈ rs →
      lookupAssoc ((load_state (some (save_state
            (_merge_receipts_into_state (load_state doc) rs)))).receipts)
          (_receipt_key r)
        = lastWithKey (_receipt_key r) rs ∧
      ∃ rLast, lastWithKey (_receipt_key r) rs = some rLast := by
  intro doc rs r hr
  have hload : (load_state (some (save_state
      (_merge_receipts_into_state (load_state doc) rs)))).receipts
      = buildReceiptMap (load_state doc).receipts rs := rfl
  rw [hload]
  refine ⟨lookup_buildMap _ _ rs ⟨r, hr, rfl⟩, ?_⟩
  have hmem : r ∈ rs.filter (fun r' => _receipt_key r' = _receipt_key r) :=
    List.mem_filter.mpr ⟨hr, by simp⟩
  have hne := List.ne_nil_of_mem hmem
  obtain ⟨x, hx⟩ := Option.isSome_iff_exists.mp (List.getLast?_isSome.mpr hne)
  exact ⟨x, hx⟩

/-- C2 witness: the round trip applied to one concrete receipt starting
from a missing state file. -/
theorem state_roundtrip_merge_spec_witness :
    lookupAssoc ((load_state (some (save_state (_merge_receipts_into_state
          (load_state none) [{ source_hash := some "h" }])))).receipts)
        (_receipt_key ({ source_hash := some "h" } : Receipt))
      = lastWithKey (_receipt_key ({ source_hash := some "h" } : Receipt))
          [{ source_hash := some "h" }] ∧
    ∃ rLast, lastWithKey (_receipt_key ({ source_hash := some "h" } : Receipt))
        [{ source_hash := some "h" }] = some rLast :=
  state_roundtrip_merge_spec none [{ source_hash := some "h" }] _ (by decide)

/-! ## Claims C5 and C10 -/

theorem parse_date_None : _parse_date "None" = none := by decide

theorem receiptTitle_eq_of_dateStr_eq (r1 r2 : Receipt)
    (h : pyStrOpt r1.date = pyStrOpt r2.date) :
    receiptTitle r1 = receiptTitle r2 := by
  cases h1 : r1.date with
  | none =>
    cases h2 : r2.date with
    | none =>
      unfold receiptTitle
      rw [h1, h2]
    | some s =>
      rw [h1, h2] at h
      have hs : s = "None" := by simpa [pyStrOpt] using h.symm
      subst hs
      unfold receiptTitle
      rw [h1, h2]
      simp [parse_date_None]
  | some s =>
    cases h2 : r2.date with
    | none =>
      rw [h1, h2] at h
      have hs : s = "None" := by simpa [pyStrOpt] using h
      subst hs
      unfold receiptTitle
      rw [h1, h2]
      simp [parse_date_None]
    | some s' =>
      rw [h1, h2] at h
      have hs : s = s' := by simpa [pyStrOpt] using h
      subst hs
      unfold receiptTitle
      rw [h1, h2]

/-- Invariant of the upload loop: every successfully fetched worksheet
is cached with a superset of its fetched key set and vice versa; every
appended row went to the worksheet of its receipt's parsed month, whose
key set was successfully fetched and did not contain the receipt's
triple; every appended triple is in its worksheet's in-memory set; and
no two appended rows share a triple. -/
def UploadInvParts (cache fetched : List (String × List SheetKey))
    (appended : List (String × Receipt)) : Prop :=
  (∀ q ∈ fetched, ∃ ks, lookupAssoc cache q.1 = some ks ∧
    q.2.Sublist ks) ∧
  (∀ t ks, lookupAssoc cache t = some ks →
    ∃ ks0, (t, ks0) ∈ fetched ∧ ks0.Sublist ks) ∧
  (∀ p ∈ appended, receiptTitle p.2 = some p.1 ∧
    ∃ ks0, (p.1, ks0) ∈ fetched ∧ tripleKey p.2 ∉ ks0) ∧
  (∀ p ∈ appended, ∃ ks, lookupAssoc cache p.1 = some ks ∧
    tripleKey p.2 ∈ ks) ∧
  (appended.map (fun p => tripleKey p.2)).Nodup

def UploadInv (st : UploadState) : Prop :=
  UploadInvParts st.cache st.fetched st.appended

theorem fetchPhase_inv (st : UploadState) (title : String)
    (h : UploadInv st) : UploadInv (fetchPhase st title).1 := by
  obtain ⟨h1, h2, h3, h4, h5⟩ := h
  unfold fetchPhase
  cases hc : lookupAssoc st.cache title with
  | some ks => exact ⟨h1, h2, h3, h4, h5⟩
  | none =>
    rcases hpf : popFetch st.env with ⟨res, env'⟩
    cases res with
    | none => exact ⟨h1, h2, h3, h4, h5⟩
    | some ks =>
      refine ⟨?_, ?_, ?_, ?_, h5⟩
      · intro q hq
        rcases List.mem_append.mp hq with hold | hnew
        · obtain ⟨ksq, hlook, hsub⟩ := h1 q hold
          have hne : q.1 ≠ title := fun he => by
            rw [he, hc] at hlook
            exact Option.noConfusion hlook
          exact ⟨ksq, by rw [lookup_insertAssoc_ne _ _ _ _ hne]; exact hlook,
            hsub⟩
        · have hq' : q = (title, ks) := by simpa using hnew
          subst hq'
          exact ⟨ks, lookup_insertAssoc_self _ _ _, List.Sublist.refl ks⟩
      · intro t ks' hl
        by_cases ht : t = title
        · subst ht
          rw [lookup_insertAssoc_self] at hl
          have hks : ks = ks' := Option.some.inj hl
          subst hks
          exact ⟨ks, List.mem_append_right _ (List.mem_singleton.mpr rfl),
            List.Sublist.refl ks⟩
        · rw [lookup_insertAssoc_ne _ _ _ _ ht] at hl
          obtain ⟨ks0, hmem, hsub⟩ := h2 t ks' hl
          exact ⟨ks0, List.mem_append_left _ hmem, hsub⟩
      · intro p hp
        obtain ⟨htp, ks0, hmem, hnot⟩ := h3 p hp
        exact ⟨htp, ks0, List.mem_append_left _ hmem, hnot⟩
      · intro p hp
        obtain ⟨ksp, hlook, hin⟩ := h4 p hp
        have hne : p.1 ≠ title := fun he => by
          rw [he, hc] at hlook
          exact Option.noConfusion hlook
        exact ⟨ksp, by rw [lookup_insertAssoc_ne _ _ _ _ hne]; exact hlook, hin⟩

theorem appendPhase_inv (st : UploadState) (title : String) (r : Receipt)
    (htitle : receiptTitle r = some title) (h : UploadInv st) :
    UploadInv (appendPhase st title r) := by
  obtain ⟨h1, h2, h3, h4, h5⟩ := h
  unfold appendPhase
  cases hc : lookupAssoc st.cache title with
  | none => exact ⟨h1, h2, h3, h4, h5⟩
  | some ks =>
    by_cases hk : tripleKey r ∈ ks
    · simp only [hk, if_true]
      exact ⟨h1, h2, h3, h4, h5⟩
    · simp only [hk, if_false]
      rcases hpa : popAppend st.env with ⟨ok, env'⟩
      cases ok with
      | false =>
        show UploadInvParts st.cache st.fetched st.appended
        exact ⟨h1, h2, h3, h4, h5⟩
      | true =>
        have hsubApp : ks.Sublist (ks ++ [tripleKey r]) :=
          List.sublist_append_left ks [tripleKey r]
        show UploadInvParts (insertAssoc st.cache title (ks ++ [tripleKey r]))
          st.fetched (st.appended ++ [(title, r)])
        refine ⟨?_, ?_, ?_, ?_, ?_⟩
        · intro q hq
          obtain ⟨ksq, hlook, hsub⟩ := h1 q hq
          by_cases ht : q.1 = title
          · rw [ht, hc] at hlook
            have : ks = ksq := Option.some.inj hlook
            subst this
            exact ⟨ks ++ [tripleKey r],
              by rw [ht]; exact lookup_insertAssoc_self _ _ _,
              hsub.trans hsubApp⟩
          · exact ⟨ksq, by rw [lookup_insertAssoc_ne _ _ _ _ ht]; exact hlook,
              hsub⟩
        · intro t ks' hl
          by_cases ht : t = title
          · rw [ht, lookup_insertAssoc_self] at hl
            have hks : ks ++ [tripleKey r] = ks' := Option.some.inj hl
            obtain ⟨ks0, hmem, hsub⟩ := h2 title ks hc
            exact ⟨ks0, by rw [ht]; exact hmem,
              by rw [← hks]; exact hsub.trans hsubApp⟩
          · rw [lookup_insertAssoc_ne _ _ _ _ ht] at hl
            exact h2 t ks' hl
        · intro p hp
          rcases List.mem_append.mp hp with hold | hnew
          · exact h3 p hold
          · have hp' : p = (title, r) := by simpa using hnew
            subst hp'
            obtain ⟨ks0, hmem, hsub⟩ := h2 title ks hc
            exact ⟨htitle, ks0, hmem, fun hin => hk (hsub.subset hin)⟩
        · intro p hp
          rcases List.mem_append.mp hp with hold | hnew
          · obtain ⟨ksp, hlook, hin⟩ := h4 p hold
            by_cases ht : p.1 = title
            · rw [ht, hc] at hlook
              have : ks = ksp := Option.some.inj hlook
              subst this
              exact ⟨ks ++ [tripleKey r],
                by rw [ht]; exact lookup_insertAssoc_self _ _ _,
                List.mem_append_left _ hin⟩
            · exact ⟨ksp, by rw [lookup_insertAssoc_ne _ _ _ _ ht]; exact hlook,
                hin⟩
          · have hp' : p = (title, r) := by simpa using hnew
            subst hp'
            exact ⟨ks ++ [tripleKey r], lookup_insertAssoc_self _ _ _,
              List.mem_append_right _ (List.mem_singleton.mpr rfl)⟩
        · rw [List.map_append, List.nodup_append]
          refine ⟨h5, by simp, ?_⟩
          intro a ha hb
          have hab : a = tripleKey r := by simpa using hb
          subst hab
          obtain ⟨p, hpmem, hptriple⟩ := List.mem_map.mp ha
          obtain ⟨hptitle, _⟩ := h3 p hpmem
          obtain ⟨ksp, hlook, hin⟩ := h4 p hpmem
          have hdates : pyStrOpt p.2.date = pyStrOpt r.date :=
            congrArg (fun t : SheetKey => t.1) hptriple
          have hteq : receiptTitle p.2 = receiptTitle r :=
            receiptTitle_eq_of_dateStr_eq p.2 r hdates
          rw [hptitle, htitle] at hteq
          have hp1 : p.1 = title := Option.some.inj hteq
          rw [hp1, hc] at hlook
          have : ks = ksp := Option.some.inj hlook
          subst this
          rw [hptriple] at hin
          exact hk hin

theorem uploadStep_inv (st : UploadState) (r : Receipt) (h : UploadInv st) :
    UploadInv (uploadStep st r) := by
  unfold uploadStep
  cases ht : receiptTitle r with
  | none => exact h
  | some title =>
    have hfp := fetchPhase_inv st title h
    by_cases hb : (fetchPhase st title).2
    · simp only [hb, if_true]
      exact appendPhase_inv _ title r ht hfp
    · simp only [hb, if_false]
      exact hfp

theorem foldl_uploadStep_inv : ∀ (rs : List Receipt) (st : UploadState),
    UploadInv st → UploadInv (rs.foldl uploadStep st) := by
  intro rs
  induction rs with
  | nil => intro st h; exact h
  | cons r rest ih =>
    intro st h
    exact ih (uploadStep st r) (uploadStep_inv st r h)

theorem upload_inv (env : SheetsEnv) (receipts : List Receipt) :
    UploadInv (upload_to_sheets env receipts) := by
  refine foldl_uploadStep_inv _ _ ?_
  refine ⟨?_, ?_, ?_, ?_, ?_⟩
  · intro q hq
    simp [initUploadState] at hq
  · intro t ks hl
    simp [initUploadState, lookupAssoc] at hl
  · intro p hp
    simp [initUploadState] at hp
  · intro p hp
    simp [initUploadState] at hp
  · simp [initUploadState]

/-- C5 (confirmed): a receipt is appended only to the month worksheet
of its parsed date, only after that worksheet's existing duplicate keys
were successfully fetched, and only when the fetched set did not hold
the receipt's key; a receipt whose worksheet fetch failed is never
appended. -/
theorem upload_appends_only_reconciled :
    ∀ (env : SheetsEnv) (receipts : List Receipt) (p : String × Receipt),
      p ∈ (upload_to_sheets env receipts).appended →
      receiptTitle p.2 = some p.1 ∧
      ∃ ks0, (p.1, ks0) ∈ (upload_to_sheets env receipts).fetched ∧
        tripleKey p.2 ∉ ks0 := by
  intro env receipts p hp
  exact (upload_inv env receipts).2.2.1 p hp

/-- Concrete receipt used to exercise the upload theorems. -/
def demoReceipt : Receipt :=
  { date := some "01/15/2026", amount := some "12.5", vendor := some "V" }

/-- Concrete external-service outcome streams: one successful fetch of
an empty worksheet and one successful append. -/
def demoEnv : SheetsEnv := ⟨[some []], [true]⟩

/-- C5 witness: the theorem applied to the one row appended in a
concrete run against an empty worksheet. -/
theorem upload_appends_only_reconciled_witness :
    receiptTitle demoReceipt = some "January 2026" ∧
    ∃ ks0, ("January 2026", ks0)
        ∈ (upload_to_sheets demoEnv [demoReceipt]).fetched ∧
      tripleKey demoReceipt ∉ ks0 :=
  upload_appends_only_reconciled demoEnv [demoReceipt]
    ("January 2026", demoReceipt) (by decide)

/-- C10 (confirmed): within one upload run no two appended rows share a
(date, amount, vendor) string triple, and every appended row's triple
is recorded in the in-memory existing-key set of its worksheet. -/
theorem upload_at_most_one_row_per_triple :
    ∀ (env : SheetsEnv) (receipts : List Receipt),
      ((upload_to_sheets env receipts).appended.map
          (fun p => tripleKey p.2)).Nodup ∧
      ∀ p ∈ (upload_to_sheets env receipts).appended,
        ∃ ks, lookupAssoc (upload_to_sheets env receipts).cache p.1
            = some ks ∧ tripleKey p.2 ∈ ks := by
  intro env receipts
  exact ⟨(upload_inv env receipts).2.2.2.2, (upload_inv env receipts).2.2.2.1⟩

/-- C10 witness: the in-memory-set conjunct applied to the row appended
in the concrete run. -/
theorem upload_at_most_one_row_per_triple_witness :
    ∃ ks, lookupAssoc (upload_to_sheets demoEnv [demoReceipt]).cache
        "January 2026" = some ks ∧ tripleKey demoReceipt ∈ ks :=
  (upload_at_most_one_row_per_triple demoEnv [demoReceipt]).2
    ("January 2026", demoReceipt) (by decide)

end ReceiptRanger
